import Mathlib

/-!
Verification of the Phasor-Handler ROI / trace / display pipeline.

Shallow embedding of the numeric parts of the repository:
* `src/tools/circle_roi.py` — the ellipse ROI tool (`CircleRoiTool`):
  coordinate mapping, ellipse mask construction, bbox updates, translation,
  selection clearing and visibility flags;
* `src/widgets/analysis_components/trace_plot.py` — signal extraction under
  an ellipse mask, baseline and neuropil-correction formulas;
* `src/widgets/analysis.py` — the z-projection branch of `update_tif_frame`;
* `src/tools/bnc.py` — `apply_bnc_to_image`, `_normalize_to_255`, `_on_auto`;
* `src/models/dir_manager.py` — `DirManager`.

Python floats are modelled as exact rationals (`ℚ`); numpy arrays as lists
(or index functions) of rationals; fallible lookups as `Option`.
`int(round x)` in Python 3 rounds half to even, which `pyRound` mirrors.
-/

/-- Python 3 `round` on a rational: round half to even (banker's rounding). -/
def pyRound (q : ℚ) : ℤ :=
  if q - ⌊q⌋ < 1/2 then ⌊q⌋
  else if 1/2 < q - ⌊q⌋ then ⌊q⌋ + 1
  else if ⌊q⌋ % 2 = 0 then ⌊q⌋ else ⌊q⌋ + 1

/-- The clamp `max lo (min v hi)`, the `max(lo, min(v, hi))` clamping idiom. -/
def clampInt (v lo hi : ℤ) : ℤ := max lo (min v hi)

/-- Embeds `np.clip(x, lo, hi)`. -/
def clipQ (x lo hi : ℚ) : ℚ := min (max x lo) hi

/-- Embeds `np.min` over a flat nonempty array (0 on empty input). -/
def listMinQ (xs : List ℚ) : ℚ :=
  match xs with
  | [] => 0
  | v :: t => t.foldl min v

/-- Embeds `np.max` over a flat nonempty array (0 on empty input). -/
def listMaxQ (xs : List ℚ) : ℚ :=
  match xs with
  | [] => 0
  | v :: t => t.foldl max v

/-- Embeds `np.mean` over a flat array (`ℚ` division by zero yields 0 on empty input). -/
def listMean (xs : List ℚ) : ℚ := xs.sum / xs.length

/- ### Data model of `CircleRoiTool` (src/tools/circle_roi.py) -/

/-- A `QRect` (integer left/top/width/height). -/
structure QRectI where
  left : ℤ
  top : ℤ
  width : ℤ
  height : ℤ
deriving DecidableEq, Repr

/-- The float bbox tuple `(left, top, width, height)` stored in `self._bbox`. -/
structure Bbox where
  left : ℚ
  top : ℚ
  w : ℚ
  h : ℚ
deriving DecidableEq, Repr

/-- A saved-ROI dict: keys `name`, `xyxy`, `color`. -/
structure SavedRoi where
  name : String
  xyxy : Option (ℤ × ℤ × ℤ × ℤ)
  color : Option (ℤ × ℤ × ℤ × ℤ)
deriving DecidableEq, Repr

/-- A stimulus-ROI dict: keys `id`, `xyxy`, `name`. -/
structure StimRoi where
  id : ℤ
  xyxy : Option (ℤ × ℤ × ℤ × ℤ)
  name : String
deriving DecidableEq, Repr

/-- The interaction mode `self._mode`: `'draw'` or `'translate'` (or `None`). -/
inductive RoiMode where
  | draw
  | translate
deriving DecidableEq, Repr

/-- The mutable state of a `CircleRoiTool` instance.  `basePixmap` records
whether `self._base_pixmap` is non-`None` (its pixel contents are irrelevant
to the geometry). -/
structure RoiState where
  drawRect : Option QRectI
  imgW : Option ℤ
  imgH : Option ℤ
  basePixmap : Bool
  startPos : Option (ℚ × ℚ)
  currentPos : Option (ℚ × ℚ)
  bbox : Option Bbox
  dragging : Bool
  savedRois : List SavedRoi
  stimRois : List StimRoi
  showSavedRois : Bool
  showStimRois : Bool
  showCurrentBbox : Bool
  mode : Option RoiMode
  translateAnchor : Option (ℚ × ℚ)
  bboxOrigin : Option Bbox
deriving Repr

/-- Embeds `CircleRoiTool._current_roi_image_coords` (circle_roi.py lines 462-501):
intersect the current bbox with the draw rectangle, normalize by the draw
rectangle size (guarded by `max(., 1.0)`), scale to image pixels with
Python `round`, clamp to the image, and reject empty/degenerate results. -/
def currentRoiImageCoords (st : RoiState) : Option (ℤ × ℤ × ℤ × ℤ) :=
  match st.bbox, st.drawRect, st.imgW, st.imgH, st.basePixmap with
  | some b, some dr, some iw, some ih, true =>
      let right := b.left + b.w
      let bottom := b.top + b.h
      let dl : ℚ := dr.left
      let dt : ℚ := dr.top
      let drr : ℚ := dr.left + dr.width
      let dbb : ℚ := dr.top + dr.height
      let interLeft := max b.left dl
      let interTop := max b.top dt
      let interRight := min right drr
      let interBottom := min bottom dbb
      if interRight ≤ interLeft ∨ interBottom ≤ interTop then none
      else
        let pw : ℚ := dr.width
        let ph : ℚ := dr.height
        let nx0 := (interLeft - dl) / max pw 1
        let ny0 := (interTop - dt) / max ph 1
        let nx1 := (interRight - dl) / max pw 1
        let ny1 := (interBottom - dt) / max ph 1
        let X0 := clampInt (pyRound (nx0 * iw)) 0 iw
        let X1 := clampInt (pyRound (nx1 * iw)) 0 iw
        let Y0 := clampInt (pyRound (ny0 * ih)) 0 ih
        let Y1 := clampInt (pyRound (ny1 * ih)) 0 ih
        if X1 ≤ X0 ∨ Y1 ≤ Y0 then none
        else some (X0, Y0, X1, Y1)
  | _, _, _, _, _ => none

/-- Claim-side formula (for the refinement statement of C1): the claimed
image coordinates, dividing corner offsets by the draw rectangle's true
width/height (no `max(., 1)` guard), rounding to nearest, clamping. -/
def specRoiCoords (b : Bbox) (dr : QRectI) (iw ih : ℤ) : ℤ × ℤ × ℤ × ℤ :=
  let dl : ℚ := dr.left
  let dt : ℚ := dr.top
  let il := max b.left dl
  let it := max b.top dt
  let ir := min (b.left + b.w) (dl + dr.width)
  let ib := min (b.top + b.h) (dt + dr.height)
  (clampInt (pyRound ((il - dl) / dr.width * iw)) 0 iw,
   clampInt (pyRound ((it - dt) / dr.height * ih)) 0 ih,
   clampInt (pyRound ((ir - dl) / dr.width * iw)) 0 iw,
   clampInt (pyRound ((ib - dt) / dr.height * ih)) 0 ih)

/-- Claim-side emptiness of the bbox/draw-rect intersection. -/
def specInterEmpty (b : Bbox) (dr : QRectI) : Prop :=
  min (b.left + b.w) ((dr.left : ℚ) + dr.width) ≤ max b.left (dr.left : ℚ) ∨
  min (b.top + b.h) ((dr.top : ℚ) + dr.height) ≤ max b.top (dr.top : ℚ)

instance (b : Bbox) (dr : QRectI) : Decidable (specInterEmpty b dr) := by
  unfold specInterEmpty; infer_instance

/-- Embeds `CircleRoiTool.clear_selection` (lines 81-91): reset only the interactive
selection; the overlay repaint touches no stored data. -/
def clearSelection (st : RoiState) : RoiState :=
  { st with startPos := none, currentPos := none, bbox := none, dragging := false }

/-- Embeds `CircleRoiTool.set_show_saved_rois` (lines 93-99). -/
def setShowSavedRois (st : RoiState) (b : Bool) : RoiState :=
  { st with showSavedRois := b }

/-- Embeds `CircleRoiTool.set_show_stim_rois` (lines 101-107). -/
def setShowStimRois (st : RoiState) (b : Bool) : RoiState :=
  { st with showStimRois := b }

/-- Embeds `CircleRoiTool.set_show_current_bbox` (lines 109-115). -/
def setShowCurrentBbox (st : RoiState) (b : Bool) : RoiState :=
  { st with showCurrentBbox := b }

/-- Embeds `CircleRoiTool._update_bbox_from_points` (lines 239-252): rectangular
bbox from the press point and the current point, with width/height clamped
below by 1.0. -/
def updateBboxFromPoints (st : RoiState) : RoiState :=
  match st.startPos, st.currentPos with
  | some p0, some p1 =>
      { st with bbox := some ⟨min p0.1 p1.1, min p0.2 p1.2,
                             max 1 |p1.1 - p0.1|, max 1 |p1.2 - p0.2|⟩ }
  | _, _ => { st with bbox := none }

/-- The `MouseMove` branch of `CircleRoiTool.eventFilter` in translate mode
(lines 164-191): move the bbox captured in `_bbox_origin` by the drag delta,
clamping left/top into the draw rectangle, keeping the origin's size. -/
def translateMove (st : RoiState) (pos : ℚ × ℚ) : RoiState :=
  if !st.dragging then st
  else
    match st.mode, st.bboxOrigin, st.translateAnchor with
    | some RoiMode.translate, some o, some a =>
        let dx := pos.1 - a.1
        let dy := pos.2 - a.2
        let nl0 := o.left + dx
        let nt0 := o.top + dy
        let moved :=
          match st.drawRect with
          | some dr =>
              let dl : ℚ := dr.left
              let dt : ℚ := dr.top
              let drr : ℚ := dr.left + dr.width
              let dbb : ℚ := dr.top + dr.height
              let l1 := if nl0 < dl then dl else nl0
              let t1 := if nt0 < dt then dt else nt0
              let l2 := if drr < l1 + o.w then drr - o.w else l1
              let t2 := if dbb < t1 + o.h then dbb - o.h else t1
              (l2, t2)
          | none => (nl0, nt0)
        { st with bbox := some ⟨moved.1, moved.2, o.w, o.h⟩ }
    | _, _, _ => st

/- ### Ellipse mask (`CircleRoiTool.get_ellipse_mask`, lines 503-529) -/

/-- The pointwise ellipse test `nx*nx + ny*ny <= 1.0` for the ellipse
inscribed in the integer bbox `(X0, Y0, X1, Y1)`. -/
def inEllipse (X0 Y0 X1 Y1 : ℤ) (x y : ℚ) : Bool :=
  let cx : ℚ := ((X0 : ℚ) + X1) / 2
  let cy : ℚ := ((Y0 : ℚ) + Y1) / 2
  let rx : ℚ := max (1/2) (((X1 : ℚ) - X0) / 2)
  let ry : ℚ := max (1/2) (((Y1 : ℚ) - Y0) / 2)
  let nx := (x - cx) / rx
  let ny := (y - cy) / ry
  decide (nx * nx + ny * ny ≤ 1)

/-- The pre-transpose boolean grid produced by
`np.meshgrid(ys, xs, indexing='xy')`: shape `(X1-X0, Y1-Y0)`, entry `[i][j]`
tests pixel `(X0+i, Y0+j)`. -/
def ellipseMaskPre (X0 Y0 X1 Y1 : ℤ) : List (List Bool) :=
  (List.range (X1 - X0).toNat).map fun (i : ℕ) =>
    (List.range (Y1 - Y0).toNat).map fun (j : ℕ) =>
      inEllipse X0 Y0 X1 Y1 ((X0 : ℚ) + (i : ℚ)) ((Y0 : ℚ) + (j : ℚ))

/-- numpy transpose (`mask.T`) of a rectangular grid with `ncols` columns:
entry `[j][i]` of the result is entry `[i][j]` of the input. -/
def transposeGrid (M : List (List Bool)) (ncols : ℕ) : List (List Bool) :=
  (List.range ncols).map fun j => M.map fun row => row.getD j false

/-- Embeds `CircleRoiTool.get_ellipse_mask`: the current ROI's integer bbox together
with the boolean ellipse mask of shape `(Y1-Y0, X1-X0)`. -/
def getEllipseMask (st : RoiState) : Option (ℤ × ℤ × ℤ × ℤ × List (List Bool)) :=
  match currentRoiImageCoords st with
  | none => none
  | some (X0, Y0, X1, Y1) =>
      if Y1 - Y0 ≤ 0 ∨ X1 - X0 ≤ 0 then none
      else some (X0, Y0, X1, Y1, transposeGrid (ellipseMaskPre X0 Y0 X1 Y1) (Y1 - Y0).toNat)

/- ### Signal extraction under the ellipse mask
(`TraceplotWidget._update_trace_from_roi`, trace_plot.py lines 184-256) -/

/-- Embeds `frame[mask]` restricted to one row: the row's values at `True`
positions, in order. -/
def rowMasked : List ℚ → List Bool → List ℚ
  | _, [] => []
  | [], _ :: _ => []
  | v :: vt, b :: bt => (if b then [v] else []) ++ rowMasked vt bt

/-- Embeds `frame[mask]`: the frame's values at `True` positions of the mask, in
row-major order. -/
def maskedValues : List (List ℚ) → List (List Bool) → List ℚ
  | _, [] => []
  | [], _ :: _ => []
  | fr :: ft, mr :: mt => rowMasked fr mr ++ maskedValues ft mt

/-- numpy `.shape` of a rectangular 2-D array given as a list of rows. -/
def shape2d {α : Type} (M : List (List α)) : ℕ × ℕ := (M.length, (M.headD []).length)

/-- Embeds `np.any(mask)` for a boolean 2-D array. -/
def maskAny (m : List (List Bool)) : Bool := m.any fun row => row.any id

/-- Embeds `mask.size` (product of the shape) for a rectangular boolean array. -/
def maskSize (m : List (List Bool)) : ℕ := m.length * (m.headD []).length

/-- Embeds `frame[Y0:Y1, X0:X1]` for nonnegative slice bounds. -/
def cropFrame (frame : List (List ℚ)) (Y0 Y1 X0 X1 : ℤ) : List (List ℚ) :=
  ((frame.drop Y0.toNat).take (Y1 - Y0).toNat).map fun row =>
    (row.drop X0.toNat).take (X1 - X0).toNat

/-- The per-frame masked-mean extraction loop of `_update_trace_from_roi`
(lines 193-207 for channel 1, lines 213-225 for channel 2): when the mask is
nonempty and has a `True` entry, each frame yields the mean of its cropped
pixels under the mask (0 on a shape mismatch or empty selection); otherwise
the whole signal is zeros. -/
def maskedSignal (ch : List (List (List ℚ))) (X0 Y0 X1 Y1 : ℤ)
    (mask : List (List Bool)) : List ℚ :=
  if 0 < maskSize mask ∧ maskAny mask = true then
    ch.map fun frame =>
      let f := cropFrame frame Y0 Y1 X0 X1
      if shape2d f = shape2d mask then
        let mv := maskedValues f mask
        if 0 < mv.length then listMean mv else 0
      else 0
  else ch.map fun _ => 0

/-- Claim-side mean (for C3): the arithmetic mean of the cropped frame's
values at the `True` positions of the mask, written with index sums. -/
def specMaskMean (f : List (List ℚ)) (m : List (List Bool)) : ℚ :=
  (∑ r ∈ Finset.range m.length, ∑ c ∈ Finset.range (m.headD []).length,
      if (m.getD r []).getD c false then (f.getD r []).getD c 0 else 0) /
  (∑ r ∈ Finset.range m.length, ∑ c ∈ Finset.range (m.headD []).length,
      if (m.getD r []).getD c false then (1 : ℚ) else 0)

/- ### Baseline and neuropil-correction formulas
(trace_plot.py lines 227-256) -/

/-- Embeds `max(1, int(np.ceil(nframes * 0.10)))`. -/
def baselineCount (n : ℕ) : ℕ := max 1 (Int.toNat ⌈(n : ℚ) * (1/10)⌉)

/-- Embeds `Fog = float(np.mean(sig1[:baseline_count]))`. -/
def computeFog (sig1 : List ℚ) : ℚ := listMean (sig1.take (baselineCount sig1.length))

/-- Embeds `denom = sig2.copy(); denom[denom == 0] = 0 + 1e-6`. -/
def replaceZeros (xs : List ℚ) : List ℚ :=
  xs.map fun v => if v = 0 then 1/1000000 else v

/-- The formula-dropdown metric (lines 243-256): index 0 is
`"Fg - Fog / Fr"`, 1 is `"Fg - Fog / Fog"`, 2 is `"Fg only"`, 3 is
`"Fr only"`.  Both signals are present (the `sig2 is None` case returns
NaNs before this dispatch). -/
def computeMetric (idx : ℕ) (sig1 sig2 : List ℚ) : List ℚ :=
  let fog := computeFog sig1
  if idx = 0 then List.zipWith (fun a b => (a - fog) / b) sig1 (replaceZeros sig2)
  else if idx = 1 then sig1.map fun a => (a - fog) / fog
  else if idx = 2 then sig1
  else if idx = 3 then sig2
  else []

/- ### Z-projection branch of `AnalysisWidget.update_tif_frame`
(analysis.py lines 1022-1080) -/

/-- A single image frame, indexed `(row, col)`. -/
abbrev FrameQ := ℕ → ℕ → ℚ

/-- The three z-projection flags `_zproj_std`, `_zproj_max`, `_zproj_mean`. -/
structure ZFlags where
  zstd : Bool
  zmax : Bool
  zmean : Bool
deriving DecidableEq, Repr

/-- The series of values at pixel `(r, c)` across all frames (axis 0). -/
def pixelSeries (tif : List FrameQ) (r c : ℕ) : List ℚ := tif.map fun f => f r c

/-- Embeds `np.var`-style variance at a pixel: mean of squared deviations from the
mean (numpy's default `ddof=0`). -/
def varList (xs : List ℚ) : ℚ :=
  listMean (xs.map fun x => (x - listMean xs) * (x - listMean xs))

/-- Embeds `np.std` at a pixel: square root of `varList`. -/
noncomputable def stdList (xs : List ℚ) : ℝ := Real.sqrt (varList xs)

/-- The channel-1 image selected by the branch at lines 1022-1080: `np.std`
/ `np.max` / `np.mean` over axis 0 when the corresponding flag is active
(std checked first, then max, then mean), otherwise the slider frame with a
clamped index. -/
noncomputable def zprojImage (fl : ZFlags) (tif : List FrameQ) (frameIdx : ℕ) :
    ℕ → ℕ → ℝ :=
  if fl.zstd then fun r c => stdList (pixelSeries tif r c)
  else if fl.zmax then fun r c => (listMaxQ (pixelSeries tif r c) : ℝ)
  else if fl.zmean then fun r c => (listMean (pixelSeries tif r c) : ℝ)
  else fun r c => ((tif.getD (min frameIdx (tif.length - 1)) fun _ _ => 0) r c : ℝ)

/-- The channel-2 image selected by the same branch: the same statistic when
channel 2 is present; in the frame branch the (already clamped) index falls
back to channel 2's last frame when out of range (lines 1066-1075). -/
noncomputable def zprojImageChan2 (fl : ZFlags) (tif : List FrameQ)
    (tif2 : Option (List FrameQ)) (frameIdx : ℕ) : Option (ℕ → ℕ → ℝ) :=
  match tif2 with
  | none => none
  | some s =>
      if fl.zstd then some fun r c => stdList (pixelSeries s r c)
      else if fl.zmax then some fun r c => (listMaxQ (pixelSeries s r c) : ℝ)
      else if fl.zmean then some fun r c => (listMean (pixelSeries s r c) : ℝ)
      else
        let k := min frameIdx (tif.length - 1)
        let k2 := if k < s.length then k else s.length - 1
        some fun r c => ((s.getD k2 fun _ _ => 0) r c : ℝ)

/- ### ImageJ-style brightness/contrast (`apply_bnc_to_image`,
bnc.py lines 718-772) -/

/-- Stage 1 of `apply_bnc_to_image`: rescale the image's own `[min, max]`
onto `[0, 255]`; a constant image becomes all 128s. -/
def bncStage1 (imgMin imgMax x : ℚ) : ℚ :=
  if imgMin < imgMax then (x - imgMin) / (imgMax - imgMin) * 255 else 128

/-- Embeds `apply_bnc_to_image(image_data, min_val, max_val, brightness, contrast)`
on a flat array: rescale to `[0, 255]`, apply the `[min_val, max_val]`
window with clipping, optionally apply brightness/contrast around the
midpoint 127.5, then clip and truncate to `uint8`. -/
def applyBncToImage (img : List ℚ) (minVal maxVal brightness contrast : ℚ) :
    List ℤ :=
  let imgMin := listMinQ img
  let imgMax := listMaxQ img
  let img1 := img.map fun x => bncStage1 imgMin imgMax x
  let img2 :=
    if minVal < maxVal then
      img1.map fun x => clipQ ((x - minVal) / (maxVal - minVal) * 255) 0 255
    else img1.map fun _ => 128
  let img3 :=
    if brightness ≠ 128 ∨ contrast ≠ 128 then
      (img2.map fun x => x + (brightness - 128)).map fun x =>
        (x - 255/2) * (contrast / 128) + 255/2
    else img2
  img3.map fun x => ⌊clipQ x 0 255⌋

/-- Claim-side per-pixel formula for C6 under `min_val < max_val`. -/
def bncPixelSpec (imgMin imgMax minVal maxVal brightness contrast x : ℚ) : ℤ :=
  let s1 := bncStage1 imgMin imgMax x
  let s2 := clipQ ((s1 - minVal) / (maxVal - minVal) * 255) 0 255
  let s3 :=
    if brightness ≠ 128 ∨ contrast ≠ 128 then
      ((s2 + (brightness - 128)) - 255/2) * (contrast / 128) + 255/2
    else s2
  ⌊clipQ s3 0 255⌋

/- ### Auto adjustment (`BnCDialog._on_auto` and `_normalize_to_255`,
bnc.py lines 662-683 and 274-289) -/

/-- Embeds `np.sort` on a flat array. -/
def npSort (xs : List ℚ) : List ℚ := List.insertionSort (· ≤ ·) xs

/-- Embeds `np.percentile(xs, p)` with the default linear interpolation: the value
at virtual index `(p/100) * (n-1)` of the sorted data. -/
def npPercentile (xs : List ℚ) (p : ℚ) : ℚ :=
  let s := npSort xs
  let idx : ℚ := p / 100 * ((s.length : ℚ) - 1)
  let vlo := s.getD (⌊idx⌋).toNat 0
  let vhi := s.getD (⌈idx⌉).toNat 0
  vlo + (idx - ⌊idx⌋) * (vhi - vlo)

/-- Embeds `BnCDialog._normalize_to_255`: rescale the flattened data's own range
onto `[0, 255]` and truncate to `uint8`; a constant array becomes 128s. -/
def normalizeTo255 (data : List ℚ) : List ℚ :=
  let mn := listMinQ data
  let mx := listMaxQ data
  if mn < mx then data.map fun x => ((⌊(x - mn) / (mx - mn) * 255⌋ : ℤ) : ℚ)
  else data.map fun _ => 128

/-- Embeds `BnCDialog._on_auto`: the `(min, max)` pair written into the current
channel's settings, or `None` when the channel has no data. -/
def onAuto (data : Option (List ℚ)) : Option (ℚ × ℚ) :=
  match data with
  | none => none
  | some d =>
      let nd := normalizeTo255 d
      let sat : ℚ := 35/100
      some (npPercentile nd sat, npPercentile nd (100 - sat))

/- ### `DirManager` (src/models/dir_manager.py) -/

/-- One iteration of the `DirManager.add` loop: append `p` if absent. -/
def dirAddStep (acc : List String × Bool) (p : String) : List String × Bool :=
  if p ∈ acc.1 then acc else (acc.1 ++ [p], true)

/-- Embeds `DirManager.add(paths)`: append each path not already present; returns
the new list and whether `directoriesChanged` was emitted. -/
def dirAdd (dirs paths : List String) : List String × Bool :=
  paths.foldl dirAddStep (dirs, false)

/-- One iteration of the `DirManager.remove` loop: `list.remove` drops the
first occurrence of `p` when present. -/
def dirRemoveStep (acc : List String × Bool) (p : String) : List String × Bool :=
  if p ∈ acc.1 then (acc.1.erase p, true) else acc

/-- Embeds `DirManager.remove(paths)`: remove the first occurrence of each present
path; returns the new list and whether `directoriesChanged` was emitted. -/
def dirRemove (dirs paths : List String) : List String × Bool :=
  paths.foldl dirRemoveStep (dirs, false)

/-- Embeds `DirManager.clear()`: empty the list, emitting only when it was
nonempty. -/
def dirClear (dirs : List String) : List String × Bool :=
  if dirs.isEmpty then (dirs, false) else ([], true)

/-- Embeds `DirManager.list()`: the current value (returned as a copy in Python;
value semantics make the copy the identity here). -/
def dirList (dirs : List String) : List String := dirs

/- ### Concrete instances used to exercise the theorems -/

/-- A concrete tool state: a 100x100 draw rectangle at the origin showing a
50x50 image, current bbox `(10, 10, 20, 20)`, mid-translation. -/
def stW : RoiState where
  drawRect := some ⟨0, 0, 100, 100⟩
  imgW := some 50
  imgH := some 50
  basePixmap := true
  startPos := some (3, 8)
  currentPos := some (5, 4)
  bbox := some ⟨10, 10, 20, 20⟩
  dragging := true
  savedRois := [⟨"roi1", some (1, 2, 3, 4), none⟩]
  stimRois := [⟨1, some (5, 6, 7, 8), "S1"⟩]
  showSavedRois := true
  showStimRois := true
  showCurrentBbox := true
  mode := some RoiMode.translate
  translateAnchor := some (12, 12)
  bboxOrigin := some ⟨10, 10, 20, 20⟩

/-- The ellipse mask of `stW`'s ROI, whose image bbox is `(5, 5, 15, 15)`. -/
def maskW : List (List Bool) := transposeGrid (ellipseMaskPre 5 5 15 15) 10

/- ### Helper lemmas -/

theorem pyRound_nearest (q : ℚ) : |(pyRound q : ℚ) - q| ≤ 1/2 := by
  have h1 := Int.floor_le q
  have h2 := Int.lt_floor_add_one q
  unfold pyRound
  split
  · rename_i h
    rw [abs_le]; constructor <;> linarith
  · split
    · rename_i h h2'
      push_neg at h
      rw [abs_le]; constructor <;> push_cast <;> linarith
    · split
      · rename_i h h2' _
        push_neg at h h2'
        have : q - ⌊q⌋ = 1/2 := le_antisymm h2' h
        rw [abs_le]; constructor <;> linarith
      · rename_i h h2' _
        push_neg at h h2'
        have : q - ⌊q⌋ = 1/2 := le_antisymm h2' h
        rw [abs_le]; constructor <;> push_cast <;> linarith

theorem getD_range_map {α : Type} (f : ℕ → α) (n i : ℕ) (d : α) (h : i < n) :
    ((List.range n).map f).getD i d = f i := by
  simp [List.getD, List.getElem?_map, List.getElem?_range, h]

theorem getD_map_lt {α β : Type} (f : α → β) (l : List α) (i : ℕ) (d : α) (e : β)
    (h : i < l.length) :
    (l.map f).getD i e = f (l.getD i d) := by
  simp [List.getD, List.getElem?_map, List.getElem?_eq_getElem, h]

theorem getD_zipWith (f : ℚ → ℚ → ℚ) :
    ∀ (a b : List ℚ) (i : ℕ), i < a.length → i < b.length →
      (List.zipWith f a b).getD i 0 = f (a.getD i 0) (b.getD i 0)
  | [], _, i, ha, _ => absurd ha (by simp)
  | _ :: _, [], i, _, hb => absurd hb (by simp)
  | x :: xs, y :: ys, 0, _, _ => rfl
  | x :: xs, y :: ys, i + 1, ha, hb => by
      simpa using getD_zipWith f xs ys i (by simpa using ha) (by simpa using hb)

/- ### C9 / C10: frame effects of the interaction operations -/

/-- C9: `clear_selection`, `set_show_saved_rois`, `set_show_stim_rois` and
`set_show_current_bbox` never modify the stored saved-ROI or stimulus-ROI
lists: for every state and every call, both lists are unchanged. -/
theorem clear_and_visibility_preserve_roi_lists :
    ∀ (st : RoiState) (b : Bool),
      (clearSelection st).savedRois = st.savedRois ∧
      (clearSelection st).stimRois = st.stimRois ∧
      (setShowSavedRois st b).savedRois = st.savedRois ∧
      (setShowSavedRois st b).stimRois = st.stimRois ∧
      (setShowStimRois st b).savedRois = st.savedRois ∧
      (setShowStimRois st b).stimRois = st.stimRois ∧
      (setShowCurrentBbox st b).savedRois = st.savedRois ∧
      (setShowCurrentBbox st b).stimRois = st.stimRois :=
  fun _ _ => ⟨rfl, rfl, rfl, rfl, rfl, rfl, rfl, rfl⟩

/-- C10: a draw gesture's bbox takes the coordinate-wise minima as left/top
and clamped absolute differences (hence `≥ 1`) as width/height; a mouse-move
in translate mode keeps the width/height captured in `_bbox_origin`, moving
only left/top, even when the position is clamped to the draw rectangle. -/
theorem draw_and_translate_bbox_invariants :
    ∀ (st : RoiState) (p0 p1 pos a : ℚ × ℚ) (o : Bbox),
      (st.startPos = some p0 → st.currentPos = some p1 →
        (updateBboxFromPoints st).bbox =
          some ⟨min p0.1 p1.1, min p0.2 p1.2,
                max 1 |p1.1 - p0.1|, max 1 |p1.2 - p0.2|⟩ ∧
        ∀ bb : Bbox, (updateBboxFromPoints st).bbox = some bb →
          1 ≤ bb.w ∧ 1 ≤ bb.h) ∧
      (st.dragging = true → st.mode = some RoiMode.translate →
        st.bboxOrigin = some o → st.translateAnchor = some a →
        ∃ nl nt : ℚ, (translateMove st pos).bbox = some ⟨nl, nt, o.w, o.h⟩) := by
  intro st p0 p1 pos a o
  constructor
  · intro h0 h1
    have hb : (updateBboxFromPoints st).bbox =
        some ⟨min p0.1 p1.1, min p0.2 p1.2,
              max 1 |p1.1 - p0.1|, max 1 |p1.2 - p0.2|⟩ := by
      unfold updateBboxFromPoints
      rw [h0, h1]
    refine ⟨hb, ?_⟩
    intro bb hbb
    rw [hb] at hbb
    obtain rfl : bb = ⟨min p0.1 p1.1, min p0.2 p1.2,
        max 1 |p1.1 - p0.1|, max 1 |p1.2 - p0.2|⟩ := by
      exact (Option.some_injective _ hbb).symm
    exact ⟨le_max_left _ _, le_max_left _ _⟩
  · intro hdrag hmode horig hanch
    unfold translateMove
    rw [hdrag, hmode, horig, hanch]
    exact ⟨_, _, rfl⟩

/- ### C1: `_current_roi_image_coords` -/

theorem drawRect_dims_of_nonempty {b : Bbox} {dr : QRectI}
    (h : ¬ specInterEmpty b dr) :
    max ((dr.width : ℚ)) 1 = (dr.width : ℚ) ∧
    max ((dr.height : ℚ)) 1 = (dr.height : ℚ) := by
  unfold specInterEmpty at h
  push_neg at h
  obtain ⟨h1, h2⟩ := h
  have hw : (0 : ℚ) < dr.width := by
    have a2 : (dr.left : ℚ) ≤ max b.left (dr.left : ℚ) := le_max_right _ _
    have a3 : min (b.left + b.w) ((dr.left : ℚ) + dr.width) ≤ (dr.left : ℚ) + dr.width :=
      min_le_right _ _
    linarith
  have hh : (0 : ℚ) < dr.height := by
    have a2 : (dr.top : ℚ) ≤ max b.top (dr.top : ℚ) := le_max_right _ _
    have a3 : min (b.top + b.h) ((dr.top : ℚ) + dr.height) ≤ (dr.top : ℚ) + dr.height :=
      min_le_right _ _
    linarith
  have hw1 : (1 : ℚ) ≤ (dr.width : ℚ) := by
    have hz : (0 : ℤ) < dr.width := by exact_mod_cast hw
    exact_mod_cast hz
  have hh1 : (1 : ℚ) ≤ (dr.height : ℚ) := by
    have hz : (0 : ℤ) < dr.height := by exact_mod_cast hh
    exact_mod_cast hz
  exact ⟨max_eq_left hw1, max_eq_left hh1⟩

/-- C1: in a state showing an image, `_current_roi_image_coords` maps the
bbox/draw-rect intersection to image pixels by dividing each corner's offset
from the draw rectangle's origin by the draw rectangle's width/height,
multiplying by the image width/height, rounding to the nearest integer
(`pyRound` deviates from its argument by at most 1/2) and clamping to
`[0, img_w] x [0, img_h]`; it returns `None` exactly when the intersection
is empty or the clamped integer rectangle has zero width or height. -/
theorem roi_image_coords_spec (st : RoiState) (b : Bbox) (dr : QRectI) (iw ih : ℤ)
    (hb : st.bbox = some b) (hd : st.drawRect = some dr)
    (hiw : st.imgW = some iw) (hih : st.imgH = some ih)
    (hpm : st.basePixmap = true) :
    (currentRoiImageCoords st = none ↔
      specInterEmpty b dr ∨
      (specRoiCoords b dr iw ih).2.2.1 ≤ (specRoiCoords b dr iw ih).1 ∨
      (specRoiCoords b dr iw ih).2.2.2 ≤ (specRoiCoords b dr iw ih).2.1) ∧
    (¬ specInterEmpty b dr →
      ¬ ((specRoiCoords b dr iw ih).2.2.1 ≤ (specRoiCoords b dr iw ih).1 ∨
         (specRoiCoords b dr iw ih).2.2.2 ≤ (specRoiCoords b dr iw ih).2.1) →
      currentRoiImageCoords st =
        some ((specRoiCoords b dr iw ih).1, (specRoiCoords b dr iw ih).2.1,
              (specRoiCoords b dr iw ih).2.2.1, (specRoiCoords b dr iw ih).2.2.2)) ∧
    (∀ q : ℚ, |(pyRound q : ℚ) - q| ≤ 1/2) := by
  have hcode : currentRoiImageCoords st =
      if specInterEmpty b dr then none
      else if (specRoiCoords b dr iw ih).2.2.1 ≤ (specRoiCoords b dr iw ih).1 ∨
              (specRoiCoords b dr iw ih).2.2.2 ≤ (specRoiCoords b dr iw ih).2.1 then none
      else some ((specRoiCoords b dr iw ih).1, (specRoiCoords b dr iw ih).2.1,
                 (specRoiCoords b dr iw ih).2.2.1, (specRoiCoords b dr iw ih).2.2.2) := by
    unfold currentRoiImageCoords
    rw [hb, hd, hiw, hih, hpm]
    by_cases hE : specInterEmpty b dr
    · rw [if_pos hE]
      have hE' : min (b.left + b.w) ((dr.left : ℚ) + dr.width) ≤ max b.left (dr.left : ℚ) ∨
          min (b.top + b.h) ((dr.top : ℚ) + dr.height) ≤ max b.top (dr.top : ℚ) := hE
      simp only [if_pos hE']
    · rw [if_neg hE]
      have hE' : ¬ (min (b.left + b.w) ((dr.left : ℚ) + dr.width) ≤ max b.left (dr.left : ℚ) ∨
          min (b.top + b.h) ((dr.top : ℚ) + dr.height) ≤ max b.top (dr.top : ℚ)) := hE
      simp only [if_neg hE']
      obtain ⟨hw, hh⟩ := drawRect_dims_of_nonempty hE
      simp only [specRoiCoords, hw, hh]
  refine ⟨?_, ?_, pyRound_nearest⟩
  · rw [hcode]
    by_cases hE : specInterEmpty b dr
    · simp [hE]
    · by_cases hD : (specRoiCoords b dr iw ih).2.2.1 ≤ (specRoiCoords b dr iw ih).1 ∨
          (specRoiCoords b dr iw ih).2.2.2 ≤ (specRoiCoords b dr iw ih).2.1
      · simp [hE, hD]
      · simp [hE, hD]
  · intro hE hD
    rw [hcode, if_neg hE, if_neg hD]

theorem coordsW_eval : currentRoiImageCoords stW = some (5, 5, 15, 15) := by
  unfold currentRoiImageCoords stW
  norm_num [clampInt, pyRound, min_def, max_def]

theorem roi_image_coords_spec_witness :
    currentRoiImageCoords stW = some
      ((specRoiCoords ⟨10, 10, 20, 20⟩ ⟨0, 0, 100, 100⟩ 50 50).1,
       (specRoiCoords ⟨10, 10, 20, 20⟩ ⟨0, 0, 100, 100⟩ 50 50).2.1,
       (specRoiCoords ⟨10, 10, 20, 20⟩ ⟨0, 0, 100, 100⟩ 50 50).2.2.1,
       (specRoiCoords ⟨10, 10, 20, 20⟩ ⟨0, 0, 100, 100⟩ 50 50).2.2.2) := by
  have h := roi_image_coords_spec stW ⟨10, 10, 20, 20⟩ ⟨0, 0, 100, 100⟩ 50 50
    rfl rfl rfl rfl rfl
  refine h.2.1 ?_ ?_
  · norm_num [specInterEmpty, min_def, max_def]
  · norm_num [specRoiCoords, clampInt, pyRound, min_def, max_def]

/- ### C2: `get_ellipse_mask` -/

theorem inEllipse_iff (X0 Y0 X1 Y1 : ℤ) (x y : ℚ) :
    inEllipse X0 Y0 X1 Y1 x y = true ↔
      ((x - ((X0 : ℚ) + X1) / 2) / max (1/2) (((X1 : ℚ) - X0) / 2)) ^ 2 +
      ((y - ((Y0 : ℚ) + Y1) / 2) / max (1/2) (((Y1 : ℚ) - Y0) / 2)) ^ 2 ≤ 1 := by
  simp [inEllipse, pow_two]

theorem transposeGrid_entry (X0 Y0 X1 Y1 : ℤ) (r c : ℕ)
    (hr : r < (Y1 - Y0).toNat) (hc : c < (X1 - X0).toNat) :
    ((transposeGrid (ellipseMaskPre X0 Y0 X1 Y1) (Y1 - Y0).toNat).getD r []).getD c false =
      inEllipse X0 Y0 X1 Y1 ((X0 : ℚ) + c) ((Y0 : ℚ) + r) := by
  unfold transposeGrid ellipseMaskPre
  rw [getD_range_map _ _ _ _ hr]
  rw [getD_map_lt _ _ _ [] _ (by simpa using hc)]
  rw [getD_range_map _ _ _ _ hc]
  rw [getD_range_map _ _ _ _ hr]

/-- C2: when `get_ellipse_mask` returns an ROI with image bbox
`(X0, Y0, X1, Y1)`, the mask has shape `(Y1-Y0, X1-X0)` and its entry
`(r, c)` is `True` iff the pixel `(x, y) = (X0+c, Y0+r)` satisfies
`((x-cx)/rx)^2 + ((y-cy)/ry)^2 <= 1` with `cx = (X0+X1)/2`,
`cy = (Y0+Y1)/2`, `rx = max(0.5, (X1-X0)/2)`, `ry = max(0.5, (Y1-Y0)/2)`;
it returns `None` whenever the current ROI or the mapping information is
missing. -/
theorem ellipse_mask_spec (st : RoiState) (X0 Y0 X1 Y1 : ℤ) (mask : List (List Bool))
    (h : getEllipseMask st = some (X0, Y0, X1, Y1, mask)) :
    mask.length = (Y1 - Y0).toNat ∧
    (∀ row ∈ mask, row.length = (X1 - X0).toNat) ∧
    (∀ r c : ℕ, r < (Y1 - Y0).toNat → c < (X1 - X0).toNat →
      ((mask.getD r []).getD c false = true ↔
        ((((X0 : ℚ) + c) - ((X0 : ℚ) + X1) / 2) / max (1/2) (((X1 : ℚ) - X0) / 2)) ^ 2 +
        ((((Y0 : ℚ) + r) - ((Y0 : ℚ) + Y1) / 2) / max (1/2) (((Y1 : ℚ) - Y0) / 2)) ^ 2 ≤ 1)) ∧
    (∀ st' : RoiState,
      st'.bbox = none ∨ st'.drawRect = none ∨ st'.imgW = none ∨
        st'.imgH = none ∨ st'.basePixmap = false →
      getEllipseMask st' = none) := by
  unfold getEllipseMask at h
  have hmask : mask = transposeGrid (ellipseMaskPre X0 Y0 X1 Y1) (Y1 - Y0).toNat := by
    cases hc : currentRoiImageCoords st with
    | none => rw [hc] at h; exact absurd h (by simp)
    | some q =>
      obtain ⟨a, b2, c2, d2⟩ := q
      rw [hc] at h
      dsimp only at h
      by_cases hg : d2 - b2 ≤ 0 ∨ c2 - a ≤ 0
      · rw [if_pos hg] at h; exact absurd h (by simp)
      · rw [if_neg hg] at h
        obtain ⟨h1, h2, h3, h4, h5⟩ : a = X0 ∧ b2 = Y0 ∧ c2 = X1 ∧ d2 = Y1 ∧
            transposeGrid (ellipseMaskPre a b2 c2 d2) (d2 - b2).toNat = mask := by
          simpa using h
        subst h1; subst h2; subst h3; subst h4
        exact h5.symm
  refine ⟨?_, ?_, ?_, ?_⟩
  · rw [hmask]; simp [transposeGrid]
  · intro row hrow
    rw [hmask] at hrow
    simp only [transposeGrid, List.mem_map] at hrow
    obtain ⟨j, _, rfl⟩ := hrow
    simp [ellipseMaskPre]
  · intro r c hr hc
    rw [hmask, transposeGrid_entry _ _ _ _ _ _ hr hc]
    exact inEllipse_iff _ _ _ _ _ _
  · intro st' hmiss
    have hcoords : currentRoiImageCoords st' = none := by
      unfold currentRoiImageCoords
      cases hb : st'.bbox <;> cases hd : st'.drawRect <;> cases hw : st'.imgW <;>
        cases hh : st'.imgH <;> cases hp : st'.basePixmap <;>
        first
          | rfl
          | (exfalso; rcases hmiss with h' | h' | h' | h' | h' <;> simp_all)
    unfold getEllipseMask
    rw [hcoords]

theorem maskW_eval : getEllipseMask stW = some (5, 5, 15, 15, maskW) := by
  unfold getEllipseMask
  rw [coordsW_eval]
  norm_num [maskW]
  rfl

theorem ellipse_mask_spec_witness :
    maskW.length = ((15 : ℤ) - 5).toNat ∧
    ∀ row ∈ maskW, row.length = ((15 : ℤ) - 5).toNat :=
  ⟨(ellipse_mask_spec stW 5 5 15 15 maskW maskW_eval).1,
   (ellipse_mask_spec stW 5 5 15 15 maskW maskW_eval).2.1⟩

theorem draw_and_translate_bbox_invariants_witness :
    ((updateBboxFromPoints stW).bbox =
      some ⟨min (3 : ℚ) 5, min (8 : ℚ) 4, max 1 |(5 : ℚ) - 3|, max 1 |(4 : ℚ) - 8|⟩) ∧
    ∃ nl nt : ℚ, (translateMove stW (200, 200)).bbox = some ⟨nl, nt, 20, 20⟩ := by
  have h := draw_and_translate_bbox_invariants stW (3, 8) (5, 4) (200, 200) (12, 12)
    ⟨10, 10, 20, 20⟩
  exact ⟨(h.1 rfl rfl).1, h.2 rfl rfl rfl rfl⟩

/- ### C4: baseline and neuropil-correction formulas -/

/-- C4: with at least one frame, `Fog` is the mean of `sig1` over the first
`max(1, ceil(0.10 * n))` frames, and the dropdown formulas compute
`(sig1 - Fog) / denom` (zeros of `sig2` replaced by `1e-6`) at index 0,
`(sig1 - Fog) / Fog` at index 1, `sig1` at index 2 and `sig2` at index 3. -/
theorem trace_metric_formulas (sig1 sig2 : List ℚ)
    (hn : sig1 ≠ []) (hl : sig2.length = sig1.length) :
    (sig1.take (max 1 (Int.toNat ⌈(sig1.length : ℚ) * (1/10)⌉))).length =
      max 1 (Int.toNat ⌈(sig1.length : ℚ) * (1/10)⌉) ∧
    computeFog sig1 =
      (sig1.take (max 1 (Int.toNat ⌈(sig1.length : ℚ) * (1/10)⌉))).sum /
        ((max 1 (Int.toNat ⌈(sig1.length : ℚ) * (1/10)⌉) : ℕ) : ℚ) ∧
    (∀ i, i < sig1.length →
      (computeMetric 0 sig1 sig2).getD i 0 =
        (sig1.getD i 0 - computeFog sig1) /
          (if sig2.getD i 0 = 0 then 1/1000000 else sig2.getD i 0)) ∧
    (∀ i, i < sig1.length →
      (computeMetric 1 sig1 sig2).getD i 0 =
        (sig1.getD i 0 - computeFog sig1) / computeFog sig1) ∧
    computeMetric 2 sig1 sig2 = sig1 ∧
    computeMetric 3 sig1 sig2 = sig2 := by
  have hn1 : 1 ≤ sig1.length := List.length_pos.mpr hn
  have hceil : ⌈(sig1.length : ℚ) * (1/10)⌉ ≤ (sig1.length : ℤ) := by
    rw [Int.ceil_le]
    push_cast
    have : (0 : ℚ) ≤ (sig1.length : ℚ) := by positivity
    linarith
  have hk : baselineCount sig1.length ≤ sig1.length := by
    unfold baselineCount
    exact max_le hn1 (Int.toNat_le.mpr hceil)
  have htake : (sig1.take (baselineCount sig1.length)).length = baselineCount sig1.length := by
    rw [List.length_take]
    exact Nat.min_eq_left hk
  refine ⟨htake, ?_, ?_, ?_, rfl, rfl⟩
  · unfold computeFog listMean
    rw [htake]
    rfl
  · intro i hi
    have h0 : computeMetric 0 sig1 sig2 =
        List.zipWith (fun a b => (a - computeFog sig1) / b) sig1 (replaceZeros sig2) := rfl
    rw [h0, getD_zipWith _ _ _ _ hi (by simpa [replaceZeros, hl] using hi)]
    rw [replaceZeros, getD_map_lt _ _ _ 0 _ (by rw [hl]; exact hi)]
  · intro i hi
    have h1 : computeMetric 1 sig1 sig2 =
        sig1.map fun a => (a - computeFog sig1) / computeFog sig1 := rfl
    rw [h1, getD_map_lt _ _ _ 0 _ hi]

theorem trace_metric_formulas_witness :
    computeMetric 2 [1, 2] [3, 4] = [1, 2] ∧ computeMetric 3 [1, 2] [3, 4] = [3, 4] :=
  ⟨(trace_metric_formulas [1, 2] [3, 4] (by decide) (by decide)).2.2.2.2.1,
   (trace_metric_formulas [1, 2] [3, 4] (by decide) (by decide)).2.2.2.2.2⟩

/- ### C5: z-projection modes -/

/-- C5: with a stack of frames, the governing z-projection flag selects the
pixel-wise statistic across all frames (axis 0): standard deviation for
`std`, maximum for `max`, mean for `mean` — and the same statistic is
applied to the second channel when it is present. -/
theorem zproj_selects_statistic (fl : ZFlags) (tif tif2 : List FrameQ) (k : ℕ) :
    (fl.zstd = true →
      zprojImage fl tif k = (fun r c => Real.sqrt (varList (tif.map fun f => f r c))) ∧
      zprojImageChan2 fl tif (some tif2) k =
        some fun r c => Real.sqrt (varList (tif2.map fun f => f r c))) ∧
    (fl.zstd = false → fl.zmax = true →
      zprojImage fl tif k = (fun r c => (listMaxQ (tif.map fun f => f r c) : ℝ)) ∧
      zprojImageChan2 fl tif (some tif2) k =
        some fun r c => (listMaxQ (tif2.map fun f => f r c) : ℝ)) ∧
    (fl.zstd = false → fl.zmax = false → fl.zmean = true →
      zprojImage fl tif k = (fun r c => (listMean (tif.map fun f => f r c) : ℝ)) ∧
      zprojImageChan2 fl tif (some tif2) k =
        some fun r c => (listMean (tif2.map fun f => f r c) : ℝ)) := by
  refine ⟨?_, ?_, ?_⟩
  · intro h1
    constructor <;> simp [zprojImage, zprojImageChan2, pixelSeries, stdList, h1]
  · intro h1 h2
    constructor <;> simp [zprojImage, zprojImageChan2, pixelSeries, h1, h2]
  · intro h1 h2 h3
    constructor <;> simp [zprojImage, zprojImageChan2, pixelSeries, h1, h2, h3]

theorem zproj_selects_statistic_witness :
    zprojImage ⟨true, false, false⟩ [fun _ _ => 1, fun _ _ => 3] 0 =
      (fun r c => Real.sqrt (varList ([fun _ _ => (1 : ℚ), fun _ _ => 3].map fun f => f r c))) ∧
    zprojImageChan2 ⟨true, false, false⟩ [fun _ _ => 1, fun _ _ => 3]
        (some [fun _ _ => 2, fun _ _ => 4]) 0 =
      some fun r c => Real.sqrt (varList ([fun _ _ => (2 : ℚ), fun _ _ => 4].map fun f => f r c)) :=
  (zproj_selects_statistic ⟨true, false, false⟩ [fun _ _ => 1, fun _ _ => 3]
    [fun _ _ => 2, fun _ _ => 4] 0).1 rfl

/- ### C6: `apply_bnc_to_image` -/

/-- C6: under a proper window (`max_val > min_val`), `apply_bnc_to_image`
computes, pixel by pixel: the linear rescale of the image's own range onto
`[0, 255]` (constant images become all 128s), the linear window map of
`[min_val, max_val]` onto `[0, 255]` with clipping, the optional
brightness/contrast adjustment (add `brightness - 128`, scale around 127.5
by `contrast / 128`), and a final clip to `[0, 255]` with `uint8`
truncation; every returned entry lies in `[0, 255]`. -/
theorem apply_bnc_spec (img : List ℚ) (minVal maxVal brightness contrast : ℚ)
    (hw : minVal < maxVal) :
    applyBncToImage img minVal maxVal brightness contrast =
      img.map (fun x => bncPixelSpec (listMinQ img) (listMaxQ img) minVal maxVal
        brightness contrast x) ∧
    (∀ v ∈ applyBncToImage img minVal maxVal brightness contrast, 0 ≤ v ∧ v ≤ 255) ∧
    (listMinQ img = listMaxQ img → ∀ x : ℚ, bncStage1 (listMinQ img) (listMaxQ img) x = 128) := by
  refine ⟨?_, ?_, ?_⟩
  · unfold applyBncToImage
    dsimp only
    rw [if_pos hw]
    by_cases hbc : brightness ≠ 128 ∨ contrast ≠ 128
    · rw [if_pos hbc]
      simp only [List.map_map]
      refine congrArg (fun f => List.map f img) (funext fun x => ?_)
      simp [Function.comp, bncPixelSpec, hbc]
    · rw [if_neg hbc]
      simp only [List.map_map]
      refine congrArg (fun f => List.map f img) (funext fun x => ?_)
      simp [Function.comp, bncPixelSpec, hbc]
  · intro v hv
    unfold applyBncToImage at hv
    dsimp only at hv
    rw [List.mem_map] at hv
    obtain ⟨x, _, rfl⟩ := hv
    have h1 : (0 : ℚ) ≤ clipQ x 0 255 := by
      unfold clipQ
      exact le_min (le_max_right _ _) (by norm_num)
    have h2 : clipQ x 0 255 ≤ 255 := min_le_right _ _
    constructor
    · exact Int.le_floor.mpr (by exact_mod_cast h1)
    · have := Int.floor_le_floor h2
      simpa using this
  · intro hc x
    unfold bncStage1
    rw [if_neg (by rw [hc]; exact lt_irrefl _)]

theorem apply_bnc_spec_witness :
    applyBncToImage [0, 10] 50 200 128 128 =
      [0, 10].map fun x => bncPixelSpec (listMinQ [0, 10]) (listMaxQ [0, 10]) 50 200 128 128 x :=
  (apply_bnc_spec [0, 10] 50 200 128 128 (by decide)).1

/- ### C7: `_on_auto` percentile clipping -/

/-- C7: for a channel with data, the Auto adjustment first normalizes the
data to the 0-255 range (linear rescale with `uint8` truncation; constant
data becomes 128s) and then sets the displayed min to the 0.35th percentile
and the max to the 99.65th percentile of the normalized data, the
percentiles being linear interpolation on a sorted permutation of it. -/
theorem onAuto_percentiles (d : List ℚ) :
    onAuto (some d) =
      some (npPercentile (normalizeTo255 d) (35/100),
            npPercentile (normalizeTo255 d) (100 - 35/100)) ∧
    (npSort (normalizeTo255 d)).Sorted (· ≤ ·) ∧
    (npSort (normalizeTo255 d)).Perm (normalizeTo255 d) ∧
    (listMinQ d < listMaxQ d →
      normalizeTo255 d = d.map fun x =>
        ((⌊(x - listMinQ d) / (listMaxQ d - listMinQ d) * 255⌋ : ℤ) : ℚ)) ∧
    (¬ listMinQ d < listMaxQ d → normalizeTo255 d = d.map fun _ => 128) := by
  refine ⟨rfl, List.sorted_insertionSort _ _, List.perm_insertionSort _ _, ?_, ?_⟩
  · intro h
    unfold normalizeTo255
    dsimp only
    rw [if_pos h]
  · intro h
    unfold normalizeTo255
    dsimp only
    rw [if_neg h]

theorem onAuto_percentiles_witness :
    onAuto (some [1, 2]) =
      some (npPercentile (normalizeTo255 [1, 2]) (35/100),
            npPercentile (normalizeTo255 [1, 2]) (100 - 35/100)) ∧
    normalizeTo255 [1, 2] = [1, 2].map fun x =>
      ((⌊(x - listMinQ [1, 2]) / (listMaxQ [1, 2] - listMinQ [1, 2]) * 255⌋ : ℤ) : ℚ) :=
  ⟨(onAuto_percentiles [1, 2]).1,
   (onAuto_percentiles [1, 2]).2.2.2.1 (by decide)⟩

/- ### C8: `DirManager` invariants -/

theorem dirAdd_fold_invariant (ps : List String) :
    ∀ (acc : List String × Bool) (dirs : List String),
      acc.1.Nodup → dirs.length ≤ acc.1.length →
      (acc.2 = false → acc.1 = dirs) → (acc.2 = true → dirs.length < acc.1.length) →
      (ps.foldl dirAddStep acc).1.Nodup ∧
      dirs.length ≤ (ps.foldl dirAddStep acc).1.length ∧
      ((ps.foldl dirAddStep acc).2 = false → (ps.foldl dirAddStep acc).1 = dirs) ∧
      ((ps.foldl dirAddStep acc).2 = true → dirs.length < (ps.foldl dirAddStep acc).1.length) := by
  induction ps with
  | nil => exact fun acc dirs h1 h2 h3 h4 => ⟨h1, h2, h3, h4⟩
  | cons p ps ih =>
    intro acc dirs h1 h2 h3 h4
    rw [List.foldl_cons]
    by_cases hp : p ∈ acc.1
    · have hstep : dirAddStep acc p = acc := by unfold dirAddStep; rw [if_pos hp]
      rw [hstep]
      exact ih acc dirs h1 h2 h3 h4
    · have hstep : dirAddStep acc p = (acc.1 ++ [p], true) := by
        unfold dirAddStep; rw [if_neg hp]
      rw [hstep]
      refine ih _ dirs ?_ ?_ ?_ ?_
      · exact h1.append (List.nodup_singleton p)
          (fun a ha hb => hp ((List.mem_singleton.mp hb) ▸ ha))
      · simp only [List.length_append, List.length_singleton]
        omega
      · intro hfalse
        exact absurd hfalse (by simp)
      · intro _
        simp only [List.length_append, List.length_singleton]
        omega

theorem dirRemove_fold_invariant (ps : List String) :
    ∀ (acc : List String × Bool) (dirs : List String),
      acc.1.Nodup → acc.1.length ≤ dirs.length →
      (acc.2 = false → acc.1 = dirs) → (acc.2 = true → acc.1.length < dirs.length) →
      (ps.foldl dirRemoveStep acc).1.Nodup ∧
      (ps.foldl dirRemoveStep acc).1.length ≤ dirs.length ∧
      ((ps.foldl dirRemoveStep acc).2 = false → (ps.foldl dirRemoveStep acc).1 = dirs) ∧
      ((ps.foldl dirRemoveStep acc).2 = true →
        (ps.foldl dirRemoveStep acc).1.length < dirs.length) := by
  induction ps with
  | nil => exact fun acc dirs h1 h2 h3 h4 => ⟨h1, h2, h3, h4⟩
  | cons p ps ih =>
    intro acc dirs h1 h2 h3 h4
    rw [List.foldl_cons]
    by_cases hp : p ∈ acc.1
    · have hstep : dirRemoveStep acc p = (acc.1.erase p, true) := by
        unfold dirRemoveStep; rw [if_pos hp]
      rw [hstep]
      have hlen : (acc.1.erase p).length = acc.1.length - 1 :=
        List.length_erase_of_mem hp
      have hpos : 0 < acc.1.length := List.length_pos.mpr (List.ne_nil_of_mem hp)
      refine ih _ dirs (h1.erase p) ?_ ?_ ?_
      · rw [hlen]; omega
      · intro hfalse
        exact absurd hfalse (by simp)
      · intro _
        rw [hlen]; omega
    · have hstep : dirRemoveStep acc p = acc := by unfold dirRemoveStep; rw [if_neg hp]
      rw [hstep]
      exact ih acc dirs h1 h2 h3 h4

/-- C8: starting from a duplicate-free directory list, `add`, `remove` and
`clear` keep the list duplicate-free and emit `directoriesChanged` exactly
when the list actually changed; `list()` is the identity on the value
(Python returns a defensive copy of it). -/
theorem dirManager_spec (dirs ps : List String) (hnd : dirs.Nodup) :
    ((dirAdd dirs ps).1.Nodup ∧
      ((dirAdd dirs ps).2 = true ↔ (dirAdd dirs ps).1 ≠ dirs)) ∧
    ((dirRemove dirs ps).1.Nodup ∧
      ((dirRemove dirs ps).2 = true ↔ (dirRemove dirs ps).1 ≠ dirs)) ∧
    ((dirClear dirs).1.Nodup ∧
      ((dirClear dirs).2 = true ↔ (dirClear dirs).1 ≠ dirs)) ∧
    dirList dirs = dirs := by
  obtain ⟨a1, a2, a3, a4⟩ :=
    dirAdd_fold_invariant ps (dirs, false) dirs hnd le_rfl (fun _ => rfl) (by simp)
  obtain ⟨r1, r2, r3, r4⟩ :=
    dirRemove_fold_invariant ps (dirs, false) dirs hnd le_rfl (fun _ => rfl) (by simp)
  refine ⟨⟨a1, ?_, ?_⟩, ⟨r1, ?_, ?_⟩, ?_, rfl⟩
  · intro ht he
    unfold dirAdd at he
    have hlt := a4 ht
    rw [he] at hlt
    exact lt_irrefl _ hlt
  · intro hne
    cases hb : (dirAdd dirs ps).2 with
    | false => exact absurd (a3 hb) hne
    | true => rfl
  · intro ht he
    unfold dirRemove at he
    have hlt := r4 ht
    rw [he] at hlt
    exact lt_irrefl _ hlt
  · intro hne
    cases hb : (dirRemove dirs ps).2 with
    | false => exact absurd (r3 hb) hne
    | true => rfl
  · unfold dirClear
    by_cases he : dirs.isEmpty
    · rw [if_pos he]
      exact ⟨hnd, by simp⟩
    · rw [if_neg he]
      have hne : dirs ≠ [] := by simpa [List.isEmpty_iff] using he
      exact ⟨List.nodup_nil, by simp [Ne.symm hne]⟩

theorem dirManager_spec_witness :
    (dirAdd ["a"] ["b"]).1.Nodup ∧
    ((dirAdd ["a"] ["b"]).2 = true ↔ (dirAdd ["a"] ["b"]).1 ≠ ["a"]) :=
  (dirManager_spec ["a"] ["b"] (by decide)).1

/- ### C3: signal extraction under the ellipse mask -/

theorem getD_mem {α : Type} (l : List α) (i : ℕ) (d : α) (h : i < l.length) :
    l.getD i d ∈ l := by
  rw [List.getD_eq_getElem l d h]
  exact List.getElem_mem h

theorem rowMasked_sum : ∀ (v : List ℚ) (b : List Bool), v.length = b.length →
    (rowMasked v b).sum =
      ∑ c ∈ Finset.range b.length, if b.getD c false then v.getD c 0 else 0 := by
  intro v b
  induction b generalizing v with
  | nil => intro _; cases v <;> simp [rowMasked]
  | cons bb bt ih =>
    intro h
    cases v with
    | nil => simp at h
    | cons vv vt =>
      have h' : vt.length = bt.length := by simpa using h
      show ((if bb then [vv] else []) ++ rowMasked vt bt).sum = _
      simp only [List.length_cons]
      rw [List.sum_append, Finset.sum_range_succ']
      have hhead : (if bb then [vv] else ([] : List ℚ)).sum = if bb then vv else 0 := by
        split <;> simp
      rw [hhead, ih vt h']
      simp only [List.getD_cons_zero, List.getD_cons_succ]
      exact add_comm _ _

theorem rowMasked_card : ∀ (v : List ℚ) (b : List Bool), v.length = b.length →
    ((rowMasked v b).length : ℚ) =
      ∑ c ∈ Finset.range b.length, if b.getD c false then (1 : ℚ) else 0 := by
  intro v b
  induction b generalizing v with
  | nil => intro _; cases v <;> simp [rowMasked]
  | cons bb bt ih =>
    intro h
    cases v with
    | nil => simp at h
    | cons vv vt =>
      have h' : vt.length = bt.length := by simpa using h
      show (((if bb then [vv] else []) ++ rowMasked vt bt).length : ℚ) = _
      simp only [List.length_cons]
      rw [List.length_append, Finset.sum_range_succ']
      have hhead : (((if bb then [vv] else ([] : List ℚ)).length : ℕ) : ℚ) =
          if bb then (1 : ℚ) else 0 := by
        split <;> simp
      push_cast
      rw [show (((if bb then [vv] else ([] : List ℚ)).length : ℕ) : ℚ) +
            ((rowMasked vt bt).length : ℚ) =
          (if bb then (1 : ℚ) else 0) + ((rowMasked vt bt).length : ℚ) by rw [hhead]]
      rw [ih vt h']
      simp only [List.getD_cons_zero, List.getD_cons_succ]
      exact add_comm _ _

theorem rowMasked_pos : ∀ (v : List ℚ) (b : List Bool), v.length = b.length →
    b.any id = true → 0 < (rowMasked v b).length := by
  intro v b
  induction b generalizing v with
  | nil => intro _ hany; simp at hany
  | cons bb bt ih =>
    intro h hany
    cases v with
    | nil => simp at h
    | cons vv vt =>
      have h' : vt.length = bt.length := by simpa using h
      show 0 < ((if bb then [vv] else []) ++ rowMasked vt bt).length
      rw [List.length_append]
      rcases (by simpa using hany : bb = true ∨ bt.any id = true) with hb | hb
      · subst hb; simp
      · have := ih vt h' hb
        omega

theorem maskedValues_sum :
    ∀ (f : List (List ℚ)) (m : List (List Bool)),
      List.Forall₂ (fun (fr : List ℚ) (mr : List Bool) => fr.length = mr.length) f m →
      (maskedValues f m).sum =
        ∑ r ∈ Finset.range m.length, ∑ c ∈ Finset.range ((m.getD r []).length),
          if (m.getD r []).getD c false then (f.getD r []).getD c 0 else 0 := by
  intro f m h
  induction h with
  | nil => simp [maskedValues]
  | cons hrow hrest ih =>
    rename_i fr mr ft mt
    show (rowMasked fr mr ++ maskedValues ft mt).sum = _
    simp only [List.length_cons]
    rw [List.sum_append, Finset.sum_range_succ']
    rw [rowMasked_sum fr mr hrow, ih]
    simp only [List.getD_cons_zero, List.getD_cons_succ]
    exact add_comm _ _

theorem maskedValues_card :
    ∀ (f : List (List ℚ)) (m : List (List Bool)),
      List.Forall₂ (fun (fr : List ℚ) (mr : List Bool) => fr.length = mr.length) f m →
      ((maskedValues f m).length : ℚ) =
        ∑ r ∈ Finset.range m.length, ∑ c ∈ Finset.range ((m.getD r []).length),
          if (m.getD r []).getD c false then (1 : ℚ) else 0 := by
  intro f m h
  induction h with
  | nil => simp [maskedValues]
  | cons hrow hrest ih =>
    rename_i fr mr ft mt
    show (((rowMasked fr mr ++ maskedValues ft mt).length : ℕ) : ℚ) = _
    simp only [List.length_cons]
    rw [List.length_append, Finset.sum_range_succ']
    push_cast
    rw [rowMasked_card fr mr hrow, ih]
    simp only [List.getD_cons_zero, List.getD_cons_succ]
    exact add_comm _ _

theorem maskedValues_pos :
    ∀ (f : List (List ℚ)) (m : List (List Bool)),
      List.Forall₂ (fun (fr : List ℚ) (mr : List Bool) => fr.length = mr.length) f m →
      maskAny m = true → 0 < (maskedValues f m).length := by
  intro f m h
  induction h with
  | nil => intro hany; simp [maskAny] at hany
  | cons hrow hrest ih =>
    rename_i fr mr ft mt
    intro hany
    show 0 < (rowMasked fr mr ++ maskedValues ft mt).length
    rw [List.length_append]
    rcases (by simpa [maskAny] using hany : mr.any id = true ∨ maskAny mt = true) with hb | hb
    · have := rowMasked_pos fr mr hrow hb
      omega
    · have := ih hb
      omega

theorem shape2d_eq_of_forall₂ {f : List (List ℚ)} {m : List (List Bool)}
    (h : List.Forall₂ (fun (fr : List ℚ) (mr : List Bool) => fr.length = mr.length) f m) :
    shape2d f = shape2d m := by
  cases h with
  | nil => rfl
  | cons hr ht => simp [shape2d, hr, List.Forall₂.length_eq ht]

theorem maskSize_pos (m : List (List Bool))
    (hrect : ∀ row ∈ m, row.length = (m.headD []).length)
    (hany : maskAny m = true) : 0 < maskSize m := by
  unfold maskAny at hany
  rw [List.any_eq_true] at hany
  obtain ⟨row, hrow, hrowany⟩ := hany
  rw [List.any_eq_true] at hrowany
  obtain ⟨bv, hbv, _⟩ := hrowany
  unfold maskSize
  have h1 : 0 < m.length := List.length_pos.mpr (List.ne_nil_of_mem hrow)
  have h2 : 0 < (m.headD []).length := by
    rw [← hrect row hrow]
    exact List.length_pos.mpr (List.ne_nil_of_mem hbv)
  exact Nat.mul_pos h1 h2

/-- C3: with an ellipse mask whose shape matches every cropped frame, the
extracted signal at each frame index is the arithmetic mean of that frame's
cropped pixel values at the `True` positions of the mask; a mask with no
`True` entry yields the all-zeros signal of length equal to the number of
frames. -/
theorem masked_signal_spec (ch : List (List (List ℚ))) (X0 Y0 X1 Y1 : ℤ)
    (mask : List (List Bool))
    (hrect : ∀ row ∈ mask, row.length = (mask.headD []).length)
    (hsh : ∀ frame ∈ ch,
      List.Forall₂ (fun (fr : List ℚ) (mr : List Bool) => fr.length = mr.length)
        (cropFrame frame Y0 Y1 X0 X1) mask) :
    (maskAny mask = true →
      ∀ i, i < ch.length →
        (maskedSignal ch X0 Y0 X1 Y1 mask).getD i 0 =
          specMaskMean (cropFrame (ch.getD i []) Y0 Y1 X0 X1) mask) ∧
    (maskAny mask = false →
      maskedSignal ch X0 Y0 X1 Y1 mask = List.replicate ch.length 0) := by
  constructor
  · intro hany i hi
    have hcond : 0 < maskSize mask ∧ maskAny mask = true :=
      ⟨maskSize_pos mask hrect hany, hany⟩
    unfold maskedSignal
    rw [if_pos hcond]
    rw [getD_map_lt _ _ _ [] _ hi]
    have hmem : ch.getD i [] ∈ ch := getD_mem ch i [] hi
    have hf2 := hsh _ hmem
    dsimp only
    rw [if_pos (shape2d_eq_of_forall₂ hf2)]
    have hpos : 0 < (maskedValues (cropFrame (ch.getD i []) Y0 Y1 X0 X1) mask).length :=
      maskedValues_pos _ _ hf2 hany
    rw [if_pos hpos]
    unfold listMean specMaskMean
    rw [maskedValues_sum _ _ hf2, maskedValues_card _ _ hf2]
    have hinner : ∀ r ∈ Finset.range mask.length,
        (mask.getD r []).length = (mask.headD []).length := by
      intro r hr
      exact hrect _ (getD_mem mask r [] (Finset.mem_range.mp hr))
    congr 1
    · exact Finset.sum_congr rfl fun r hr => by rw [hinner r hr]
    · exact Finset.sum_congr rfl fun r hr => by rw [hinner r hr]
  · intro hany
    unfold maskedSignal
    rw [if_neg (by simp [hany])]
    simp

theorem masked_signal_spec_witness :
    (maskedSignal [[[1, 2], [3, 4]]] 0 0 2 2 [[true, false], [false, true]]).getD 0 0 =
      specMaskMean (cropFrame ([[[1, 2], [3, 4]]].getD 0 []) 0 2 0 2)
        [[true, false], [false, true]] := by
  have h := masked_signal_spec [[[1, 2], [3, 4]]] 0 0 2 2 [[true, false], [false, true]]
    (by decide)
    (by
      intro frame hf
      simp only [List.mem_singleton] at hf
      subst hf
      exact List.Forall₂.cons (by decide) (List.Forall₂.cons (by decide) List.Forall₂.nil))
  exact h.1 (by decide) 0 (by decide)
